import Mathlib

/-!
Shallow embedding of the client-side file-hosting application
(`src/static/js/app.js`, table-view variant, and `src/unnamed/part_000`,
card-grid variant) together with proofs about its registry, upload queue
and formatting operations.

Conventions of the embedding:
* DOM handles (the `element` field of queue items, toast nodes, rendered
  rows) are view-layer data and are not part of the state; calls that only
  touch the DOM are recorded as the `Effect.render` event.
* Every externally visible action (toast, redirect, HTTP request being
  issued, timer being scheduled) is recorded in an effect list, in program
  order.
* Network responses are inputs: an async function that performs a `fetch`
  or an XHR is modelled as a pure function taking the outcome of that
  request as an extra argument, and emitting a `networkSend` effect for
  the request it issues.
* JavaScript truthiness of possibly-absent strings (`null`/`undefined`/
  `""` are falsy) is modelled on `Option String`.
* JavaScript numbers that the code manipulates are modelled exactly:
  integer counters as `Nat`, the fractional progress percentage and the
  inputs of `formatBytes` as `ℚ` (exact arithmetic in place of IEEE
  doubles; no borderline rounding of `Math.log` is relevant to any
  statement proved here).
-/

/-- Toast severity, the second argument of `showToast`. -/
inductive ToastKind where
  | info
  | success
  | error
deriving DecidableEq, Repr

/-- Externally observable events of one handler run, in program order. -/
inductive Effect where
  /-- `showToast(message, kind)` -/
  | toast (message : String) (kind : ToastKind)
  /-- `window.location.href = url` (redirectToLogin) -/
  | redirect (url : String)
  /-- an HTTP request is issued (`fetch` or `XMLHttpRequest.send`) -/
  | networkSend (method : String) (url : String)
  /-- a DOM update (`renderFiles`, `renderQueue`, `updateStats`,
  `updateQueueVisual`) -/
  | render
  /-- `scheduleQueueRemoval(item)`: the 4000 ms removal timer is armed -/
  | scheduleRemoval (id : String)
deriving DecidableEq, Repr

/-- JS truthiness of a possibly absent string value:
`null`, `undefined` and `""` are falsy. -/
def jsStrTruthy : Option String → Bool
  | none => false
  | some s => s != ""

/-- JS `a || b` on possibly absent strings: returns `a` when truthy,
otherwise `b`. -/
def jsOrOpt (a b : Option String) : Option String :=
  if jsStrTruthy a then a else b

/-- JS `a || b` where `a` is a possibly absent string and `b` a string
fallback (the common `data.message || "..."` pattern). -/
def jsOrStr (a : Option String) (b : String) : String :=
  match a with
  | some s => if s = "" then b else s
  | none => b

/-- One file record of the registry mirror (`state.files` entries), with
the fields this layer reads or writes. -/
structure FileRecord where
  id : String
  name : String
  /-- byte size; `none` models an absent `size` field (`current.size || 0`
  reads it as 0) -/
  size : Option Nat
  content_type : Option String
  share_url : Option String
  share_raw_url : Option String
  share_token : Option String
  is_public : Bool
deriving DecidableEq, Repr

/-- Status of an upload queue item. -/
inductive Status where
  | pending
  | uploading
  | success
  | error
deriving DecidableEq, Repr

/-- The payload reference of a queue item (`item.file`): the selected
browser file's name and byte size. -/
structure FileMeta where
  name : String
  size : Nat
deriving DecidableEq, Repr

/-- One upload queue item (`state.queue` entries).  The DOM handle
(`element`) is omitted; `inflight` is the model's record of whether the
item's XHR is outstanding (its callbacks exist and have not yet fired),
which the browser represents by the live `XMLHttpRequest` object. -/
structure QueueItem where
  id : String
  file : FileMeta
  status : Status
  progress : ℚ
  message : String
  inflight : Bool
deriving DecidableEq, Repr

/-- Session preferences cached from the server (`state.preferences`). -/
structure Preferences where
  hideMediaDefault : Bool
  copyUrlMode : String
deriving DecidableEq, Repr

/-- The module-level mutable `state` object. -/
structure AppState where
  files : List FileRecord
  capacity : Nat
  totalSize : Nat
  queue : List QueueItem
  preferences : Preferences
deriving DecidableEq, Repr

/-- `MAX_FILE_SIZE = 500 * 1024 * 1024` (500 MiB). -/
def MAX_FILE_SIZE : Nat := 500 * 1024 * 1024

/-- The list part of `insertOrUpdateFile`: replace the record at the first
index whose `id` matches (`findIndex` + assignment), else `unshift`. -/
def insertOrUpdateFiles (files : List FileRecord) (f : FileRecord) :
    List FileRecord :=
  match files.findIdx? (fun entry => entry.id == f.id) with
  | some i => files.set i f
  | none => f :: files

/-- `state.files.reduce((total, current) => total + (current.size || 0), 0)`. -/
def computeTotalSize (files : List FileRecord) : Nat :=
  files.foldl (fun total current => total + current.size.getD 0) 0

/-- `insertOrUpdateFile(file)`: upsert keyed by identifier, then recompute
the derived total size from scratch. -/
def insertOrUpdateFile (st : AppState) (f : FileRecord) : AppState :=
  let files := insertOrUpdateFiles st.files f
  { st with files := files, totalSize := computeTotalSize files }

/-- JS `a || b` on two strings (`error.message || "..."`): `""` is falsy. -/
def jsStrOr (a b : String) : String :=
  if a = "" then b else a

/-- Toast text for an oversized candidate (template literal of
`addFilesToQueue`). -/
def oversizeMsg (name : String) : String :=
  "\"" ++ name ++ "\" ist größer als 500 MB und wurde übersprungen."

/-- Toast text for the accepted-count success message of
`addFilesToQueue`. -/
def addedMsg (n : Nat) : String :=
  toString n ++ " Datei(en) hinzugefügt. Starte den Upload, wenn du bereit bist."

/-- Toast text for a completed upload (template literal of the XHR load
handler). -/
def uploadSuccessMsg (name : String) : String :=
  "\"" ++ name ++ "\" wurde erfolgreich hochgeladen."

/-- A fresh queue item as built by `addFilesToQueue` (the generated
`Date.now()`/random id is an input of the model). -/
def mkQueueItem (id : String) (f : FileMeta) : QueueItem :=
  { id := id, file := f, status := .pending, progress := 0,
    message := "Bereit für Upload", inflight := false }

/-- The `files.forEach` loop body of `addFilesToQueue`, processing the
candidates left to right: returns the accepted items in order, the error
toasts emitted, and `addedCount`. -/
def addLoop : List (String × FileMeta) → List QueueItem × List Effect × Nat
  | [] => ([], [], 0)
  | c :: rest =>
    let r := addLoop rest
    if c.2.size > MAX_FILE_SIZE then
      (r.1, Effect.toast (oversizeMsg c.2.name) .error :: r.2.1, r.2.2)
    else
      (mkQueueItem c.1 c.2 :: r.1, r.2.1, r.2.2 + 1)

/-- `addFilesToQueue(fileList)`: each candidate file is paired with the
id generated for it.  Oversized files are skipped with an error toast;
accepted files are pushed in `pending` state; then the queue is
re-rendered and a success toast reports the accepted count if positive. -/
def addFilesToQueue (st : AppState) (cands : List (String × FileMeta)) :
    AppState × List Effect :=
  if cands.isEmpty then (st, [])
  else
    let r := addLoop cands
    ({ st with queue := st.queue ++ r.1 },
     r.2.1 ++ [Effect.render] ++
       (if r.2.2 > 0 then [Effect.toast (addedMsg r.2.2) .success] else []))

/-- The synchronous prefix of `uploadQueueItem(item)`: mark the item
`uploading`, reset progress, set the in-flight message (the XHR is then
created and sent, which arms this item's callbacks). -/
def uploadStart (it : QueueItem) : QueueItem :=
  { it with
      status := .uploading
      progress := 0
      message := "Upload läuft..."
      inflight := true }

/-- The start-upload click handler: if no item is `pending`, an info toast
and nothing else; otherwise every pending item is started
(`uploadQueueItem`), emitting a visual update and an upload request per
item. -/
def startUploadHandler (st : AppState) : AppState × List Effect :=
  if st.queue.any (fun item => item.status == .pending) then
    ({ st with queue := st.queue.map (fun item =>
        if item.status == .pending then uploadStart item else item) },
     (st.queue.filter (fun item => item.status == .pending)).flatMap
       (fun _ => [Effect.render, Effect.networkSend "POST" "/api/upload"]))
  else
    (st, [Effect.toast "Keine Dateien in der Warteschlange." .info])

/-- The remove-button click handler of `renderQueue`, whose closure holds
`item`: rejected with an info toast unless the item is `pending`,
otherwise the queue is filtered by the item's id and re-rendered. -/
def removeQueueItem (st : AppState) (item : QueueItem) :
    AppState × List Effect :=
  if item.status != Status.pending then
    (st, [Effect.toast "Nur wartende Dateien können entfernt werden." .info])
  else
    ({ st with queue := st.queue.filter (fun q => q.id != item.id) },
     [Effect.render])

/-- Parsed JSON body of an upload response (`response.message`,
`response.files`). -/
structure UploadBody where
  message : Option String
  files : Option (List FileRecord)
deriving DecidableEq, Repr

/-- Mutation of the queue item with the given id (the JS closures mutate
the item object in place; ids are unique, see `QueueInv`). -/
def setQueueItem (q : List QueueItem) (id : String)
    (f : QueueItem → QueueItem) : List QueueItem :=
  q.map (fun it => if it.id == id then f it else it)

/-- The XHR `load` handler of `uploadQueueItem` for `item`, given the HTTP
status and the `JSON.parse` outcome of the response text (`.error ()` when
parsing threw).  A 2xx response without a file descriptor triggers a
background `refreshFiles()` call, recorded here as its request being
issued; its completion is a separate event. -/
def handleUploadLoad (st : AppState) (item : QueueItem) (httpStatus : Nat)
    (body : Except Unit UploadBody) : AppState × List Effect :=
  if httpStatus == 401 then
    (st, [Effect.redirect "/login"])
  else
    match body with
    | .error _ =>
      ({ st with queue := setQueueItem st.queue item.id (fun it =>
          { it with
              status := .error
              message := "Der Upload ist fehlgeschlagen."
              inflight := false }) },
       [Effect.render, Effect.toast "Der Upload ist fehlgeschlagen." .error])
    | .ok b =>
      if 200 ≤ httpStatus ∧ httpStatus < 300 then
        let uploadedFile := b.files.bind List.head?
        let st1 := { st with queue := setQueueItem st.queue item.id (fun it =>
          { it with
              status := .success
              progress := 100
              message := "Upload abgeschlossen."
              inflight := false }) }
        let effs1 := [Effect.render,
          Effect.toast (uploadSuccessMsg item.file.name) .success]
        match uploadedFile with
        | some f =>
          (insertOrUpdateFile st1 f,
           effs1 ++ [Effect.render, Effect.render,
             Effect.scheduleRemoval item.id])
        | none =>
          (st1, effs1 ++ [Effect.networkSend "GET" "/api/files",
             Effect.scheduleRemoval item.id])
      else
        let msg := jsOrStr b.message "Der Upload ist fehlgeschlagen."
        ({ st with queue := setQueueItem st.queue item.id (fun it =>
            { it with
                status := .error
                message := msg
                inflight := false }) },
         [Effect.render, Effect.toast msg .error])

/-- The XHR `error` handler of `uploadQueueItem` for `item`. -/
def handleUploadError (st : AppState) (item : QueueItem) :
    AppState × List Effect :=
  ({ st with queue := setQueueItem st.queue item.id (fun it =>
      { it with
          status := .error
          message := "Netzwerkfehler beim Upload."
          inflight := false }) },
   [Effect.render, Effect.toast "Netzwerkfehler beim Upload." .error])

/-- The `scheduleQueueRemoval` timeout firing for the item with the given
id: remove it only if it is still present and still `success`. -/
def queueRemovalTimerFire (st : AppState) (id : String) :
    AppState × List Effect :=
  match st.queue.findIdx? (fun entry => entry.id == id) with
  | some i =>
    match st.queue[i]? with
    | some it =>
      if it.status == Status.success then
        ({ st with queue := st.queue.eraseIdx i }, [Effect.render])
      else (st, [])
    | none => (st, [])
  | none => (st, [])

/-- The outcome of one `fetch`, as consumed by the calling code: either
the promise rejected (network failure, carrying `error.message`), or a
response arrived with an HTTP status and a body whose `JSON.parse` either
produced `β` or threw (carrying the parse error's message). -/
inductive FetchOutcome (β : Type) where
  | networkFailure (message : String)
  | resp (status : Nat) (body : Except String β)
deriving Repr

/-- `response.ok`: status in the 2xx range. -/
def respOk (status : Nat) : Bool :=
  200 ≤ status && status < 300

/-- `data.message` as read through `response.json().catch(() => ({}))`:
a parse failure yields the empty object, whose `message` is absent. -/
def bodyMessage {β : Type} (get : β → Option String) :
    Except String β → Option String
  | .ok b => get b
  | .error _ => none

/-- Parsed JSON body of the listing endpoint (`/api/files`). -/
structure PrefsPayload where
  hide_media_default : Bool
  copy_url_mode : Option String
deriving DecidableEq, Repr

/-- Parsed JSON body of a full refresh response. -/
structure RefreshBody where
  files : Option (List FileRecord)
  total_size : Option Nat
  capacity : Option Nat
  preferences : Option PrefsPayload
deriving DecidableEq, Repr

/-- The wholesale state replacement performed by `refreshFiles` on a
parsed 2xx body (table-view variant, which also folds in preferences). -/
def refreshApply (st : AppState) (b : RefreshBody) : AppState :=
  { st with
      files := b.files.getD []
      totalSize := b.total_size.getD 0
      capacity := b.capacity.getD 0
      preferences :=
        match b.preferences with
        | none => st.preferences
        | some p =>
          { hideMediaDefault := p.hide_media_default
            copyUrlMode :=
              match p.copy_url_mode with
              | some s => if s != "" then s else st.preferences.copyUrlMode
              | none => st.preferences.copyUrlMode } }

/-- The continuation of `refreshFiles` (table-view variant of `app.js`)
once its fetch has settled: 401 redirects; any other non-2xx throws and is
caught as an error toast; an unparsable body likewise; a parsed body
replaces registry, totals, capacity and preferences wholesale, then
re-renders. -/
def refreshFilesCont (st : AppState) (showToastOnSuccess : Bool)
    (net : FetchOutcome RefreshBody) : AppState × List Effect :=
  match net with
  | .networkFailure msg =>
    (st, [Effect.toast
      (jsStrOr msg "Die Dateiliste konnte nicht geladen werden.") .error])
  | .resp status body =>
    if status == 401 then
      (st, [Effect.redirect "/login"])
    else if !respOk status then
      (st, [Effect.toast "Fehler beim Laden der Dateien." .error])
    else
      match body with
      | .error msg =>
        (st, [Effect.toast
          (jsStrOr msg "Die Dateiliste konnte nicht geladen werden.") .error])
      | .ok b =>
        (refreshApply st b,
         [Effect.render, Effect.render] ++
           (if showToastOnSuccess then
             [Effect.toast "Dateiliste aktualisiert." .success] else []))

/-- `refreshFiles(showToastOnSuccess)` of `app.js`: issue the listing
request and handle its outcome. -/
def refreshFiles (st : AppState) (showToastOnSuccess : Bool)
    (net : FetchOutcome RefreshBody) : AppState × List Effect :=
  let r := refreshFilesCont st showToastOnSuccess net
  (r.1, Effect.networkSend "GET" "/api/files" :: r.2)

/-- `refreshFiles` of the card-grid variant (`part_000`), which has no
preferences block: otherwise identical to the table-view variant. -/
def refreshFilesCard (st : AppState) (showToastOnSuccess : Bool)
    (net : FetchOutcome RefreshBody) : AppState × List Effect :=
  match net with
  | .networkFailure msg =>
    (st, [Effect.networkSend "GET" "/api/files",
      Effect.toast
        (jsStrOr msg "Die Dateiliste konnte nicht geladen werden.") .error])
  | .resp status body =>
    if status == 401 then
      (st, [Effect.networkSend "GET" "/api/files", Effect.redirect "/login"])
    else if !respOk status then
      (st, [Effect.networkSend "GET" "/api/files",
        Effect.toast "Fehler beim Laden der Dateien." .error])
    else
      match body with
      | .error msg =>
        (st, [Effect.networkSend "GET" "/api/files",
          Effect.toast
            (jsStrOr msg "Die Dateiliste konnte nicht geladen werden.") .error])
      | .ok b =>
        ({ st with
            files := b.files.getD []
            totalSize := b.total_size.getD 0
            capacity := b.capacity.getD 0 },
         [Effect.networkSend "GET" "/api/files", Effect.render, Effect.render]
           ++ (if showToastOnSuccess then
             [Effect.toast "Dateiliste aktualisiert." .success] else []))

/-- Parsed JSON body of a share-creation response. -/
structure ShareBody where
  message : Option String
  share_url : Option String
  share_raw_url : Option String
  share_token : Option String
deriving DecidableEq, Repr

/-- Parsed JSON body read only for its optional `message` field. -/
structure MsgBody where
  message : Option String
deriving DecidableEq, Repr

/-- Result of an async action: the promise outcome (`.error` is the
thrown error's message), the state afterwards, and the emitted effects. -/
structure CallResult where
  outcome : Except String FileRecord
  state : AppState
  effects : List Effect
deriving Repr

/-- `ensureShareLink(fileId, needsRawLink)` of `app.js`.  If the record
carries a truthy `share_url` (and, when `needsRawLink`, a truthy
`share_raw_url`), it is returned with no request.  Otherwise a share is
requested and its fields merged into the record (in JS by mutating the
object held in `state.files`; the functional update below lands on the
same first matching index, so the lists agree). -/
def ensureShareLink (st : AppState) (fileId : String) (needsRawLink : Bool)
    (net : FetchOutcome ShareBody) : CallResult :=
  match st.files.find? (fun entry => entry.id == fileId) with
  | none => ⟨.error "Datei wurde nicht gefunden.", st, []⟩
  | some file =>
    if jsStrTruthy file.share_url
        && (!needsRawLink || jsStrTruthy file.share_raw_url) then
      ⟨.ok file, st, []⟩
    else
      let send := Effect.networkSend "POST" ("/api/files/" ++ fileId ++ "/share")
      match net with
      | .networkFailure msg => ⟨.error msg, st, [send]⟩
      | .resp status body =>
        if status == 401 then
          ⟨.error "Authentifizierung erforderlich.", st,
           [send, Effect.redirect "/login"]⟩
        else if !respOk status then
          ⟨.error (jsOrStr (bodyMessage ShareBody.message body)
             "Der Freigabelink konnte nicht erstellt werden."), st, [send]⟩
        else
          match body with
          | .error msg => ⟨.error msg, st, [send]⟩
          | .ok b =>
            let file1 : FileRecord :=
              { file with
                  share_url := b.share_url
                  share_raw_url := jsOrOpt b.share_raw_url b.share_url
                  share_token := jsOrOpt b.share_token file.share_token
                  is_public := true }
            let st1 := insertOrUpdateFile st file1
            ⟨.ok ((st1.files.find? (fun entry => entry.id == fileId)).getD file1),
             st1, [send, Effect.render, Effect.render]⟩

/-- `deleteFile(fileId)` of `app.js` (table-view variant): on a 2xx
response the record is filtered out of the registry and the view
re-rendered; no follow-up refresh is issued.  The result of the
`confirm` dialog is the `confirmed` input. -/
def deleteFile (st : AppState) (fileId : String) (confirmed : Bool)
    (net : FetchOutcome MsgBody) : AppState × List Effect :=
  match st.files.find? (fun entry => entry.id == fileId) with
  | none => (st, [Effect.toast "Datei wurde nicht gefunden." .error])
  | some _ =>
    if !confirmed then (st, [])
    else
      let send := Effect.networkSend "DELETE" ("/api/files/" ++ fileId)
      match net with
      | .networkFailure msg =>
        (st, [send, Effect.toast
          (jsStrOr msg "Die Datei konnte nicht gelöscht werden.") .error])
      | .resp status body =>
        if status == 401 then (st, [send, Effect.redirect "/login"])
        else if !respOk status then
          (st, [send, Effect.toast
            (jsOrStr (bodyMessage MsgBody.message body)
              "Die Datei konnte nicht gelöscht werden.") .error])
        else
          ({ st with files := st.files.filter (fun entry => entry.id != fileId) },
           [send, Effect.render, Effect.render,
            Effect.toast "Datei wurde gelöscht." .success])

/-- The delete-button handler of `createFileCard` (`part_000`, card-grid
variant), whose closure holds `file`: on a 2xx response the record is
filtered out and a full `refreshFiles()` is then awaited. -/
def deleteFileCardHandler (st : AppState) (file : FileRecord)
    (confirmed : Bool) (net : FetchOutcome MsgBody)
    (refreshNet : FetchOutcome RefreshBody) : AppState × List Effect :=
  if !confirmed then (st, [])
  else
    let send := Effect.networkSend "DELETE" ("/api/files/" ++ file.id)
    match net with
    | .networkFailure msg =>
      (st, [send, Effect.toast
        (jsStrOr msg "Die Datei konnte nicht gelöscht werden.") .error])
    | .resp status body =>
      if status == 401 then (st, [send, Effect.redirect "/login"])
      else if !respOk status then
        (st, [send, Effect.toast
          (jsOrStr (bodyMessage MsgBody.message body)
            "Die Datei konnte nicht gelöscht werden.") .error])
      else
        let st1 := { st with
          files := st.files.filter (fun entry => entry.id != file.id) }
        let r := refreshFilesCard st1 false refreshNet
        (r.1, [send, Effect.toast "Datei wurde gelöscht." .success] ++ r.2)

/-- A JavaScript number as classified by `Number.isFinite`: finite values
are modelled exactly as rationals. -/
inductive JsNum where
  | nan
  | posInf
  | negInf
  | num (q : ℚ)
deriving DecidableEq, Repr

/-- `value.toFixed(digits)` for the nonnegative values and `digits ∈
{0, 1}` used by `formatBytes`: round to the nearest multiple of
`10 ^ -digits`, ties away from zero (ECMA-262 picks the larger
candidate). -/
def jsToFixed (q : ℚ) (digits : Nat) : String :=
  let scaled : ℤ := ⌊q * (10 : ℚ) ^ digits + 1 / 2⌋
  if digits = 0 then toString scaled
  else toString (scaled / 10) ++ "." ++ toString (scaled % 10)

/-- `units[exponent]` rendered through the template literal: JS indexing
out of the array's range yields `undefined`, which the template renders as
the string "undefined". -/
def unitsAt (z : ℤ) : String :=
  if z = 0 then "B"
  else if z = 1 then "KB"
  else if z = 2 then "MB"
  else if z = 3 then "GB"
  else if z = 4 then "TB"
  else "undefined"

/-- `formatBytes(bytes)`: guard non-finite and non-positive inputs, then
take the 1024-logarithm's floor (`Math.floor(Math.log(bytes) /
Math.log(1024))`, exactly `Int.log 1024`), clamp it from above at
`units.length - 1 = 4`, scale, and format. -/
def formatBytes (bytes : JsNum) : String :=
  match bytes with
  | .num q =>
    if q ≤ 0 then "0 B"
    else
      let exponent : ℤ := min (Int.log 1024 q) 4
      let value : ℚ := q / (1024 : ℚ) ^ exponent
      jsToFixed value (if 10 ≤ value ∨ exponent = 0 then 0 else 1)
        ++ " " ++ unitsAt exponent
  | _ => "0 B"

/-- An event consumed by the upload-queue layer; each carries the data
the corresponding JS callback receives. -/
inductive Op where
  /-- `addFilesToQueue` with the candidates and their generated ids -/
  | add (cands : List (String × FileMeta))
  /-- the start-upload button click -/
  | start
  /-- an XHR upload `progress` event for the item with this id
  (`lengthComputable`, so `total ≠ 0` in `opWf`) -/
  | progressEv (id : String) (loaded total : Nat)
  /-- the XHR `load` event for the item with this id -/
  | loadEv (id : String) (httpStatus : Nat) (body : Except Unit UploadBody)
  /-- the XHR `error` event for the item with this id -/
  | errorEv (id : String)
  /-- the `scheduleQueueRemoval` timer firing for this id -/
  | removalTimer (id : String)
  /-- the remove-button click on the row of this id -/
  | removeClick (id : String)

/-- One event dispatch.  XHR callbacks exist only while their item's
request is outstanding (`inflight`), and each fires at most once; an
event for an id with no live request is a non-event. -/
def step (st : AppState) : Op → AppState × List Effect
  | .add cands => addFilesToQueue st cands
  | .start => startUploadHandler st
  | .progressEv id loaded total =>
    match st.queue.find? (fun it => it.id == id) with
    | some it =>
      if it.inflight then
        ({ st with queue := setQueueItem st.queue id (fun i2 =>
            { i2 with progress := (loaded : ℚ) / (total : ℚ) * 100 }) },
         [Effect.render])
      else (st, [])
    | none => (st, [])
  | .loadEv id status body =>
    match st.queue.find? (fun it => it.id == id) with
    | some it => if it.inflight then handleUploadLoad st it status body
      else (st, [])
    | none => (st, [])
  | .errorEv id =>
    match st.queue.find? (fun it => it.id == id) with
    | some it => if it.inflight then handleUploadError st it else (st, [])
    | none => (st, [])
  | .removalTimer id => queueRemovalTimerFire st id
  | .removeClick id =>
    match st.queue.find? (fun it => it.id == id) with
    | some it => removeQueueItem st it
    | none => (st, [])

/-- Well-formedness of an event against the ids already consumed:
generated queue-item ids are globally fresh (the client generates them
from clock and randomness and owns their uniqueness), and a progress
event with `lengthComputable` has a nonzero total. -/
def opWf (used : List String) : Op → Prop
  | .add cands => (cands.map Prod.fst).Nodup ∧ ∀ c ∈ cands, c.1 ∉ used
  | .progressEv _ _ total => total ≠ 0
  | _ => True

/-- Ids consumed after an event. -/
def usedAfter (used : List String) : Op → List String
  | .add cands => used ++ cands.map Prod.fst
  | _ => used

/-- An event trace in which every event is well-formed at its point. -/
def traceWf : List String → AppState → List Op → Prop
  | _, _, [] => True
  | used, st, op :: rest =>
    opWf used op ∧ traceWf (usedAfter used op) (step st op).1 rest

/-- Run a trace of events. -/
def run (st : AppState) : List Op → AppState
  | [] => st
  | op :: rest => run (step st op).1 rest

/-- Queue invariant: an item with an outstanding request is in `uploading`
state, and queue-item ids are pairwise distinct. -/
def QueueListInv (q : List QueueItem) : Prop :=
  (∀ it ∈ q, it.inflight = true → it.status = Status.uploading) ∧
  (q.map (fun it => it.id)).Nodup

/-- The queue invariant on the application state. -/
def QueueInv (st : AppState) : Prop :=
  QueueListInv st.queue

/-- Every id in the queue has been consumed. -/
def UsedInv (used : List String) (st : AppState) : Prop :=
  ∀ it ∈ st.queue, it.id ∈ used

/-- The transitions a status may take in one event:
stay, `pending → uploading`, or `uploading → success/error`. -/
def statusStepB : Status → Status → Bool
  | s, t =>
    s == t || (s == .pending && t == .uploading)
      || (s == .uploading && (t == .success || t == .error))

/-- The reachability order generated by `statusStepB`:
`pending ≤ uploading ≤ success/error`. -/
def statusLeB : Status → Status → Bool
  | .pending, _ => true
  | .uploading, .pending => false
  | .uploading, _ => true
  | .success, t => t == .success
  | .error, t => t == .error

/-- What one event preserves: the queue invariant, containment of ids in
the consumed set, absence of ids that are consumed but not present, and
the per-item status-transition relation. -/
def StepOk (used used2 : List String) (q q2 : List QueueItem) : Prop :=
  QueueListInv q2
  ∧ (∀ it ∈ q2, it.id ∈ used2)
  ∧ (∀ x ∈ used, (∀ itm ∈ q, itm.id ≠ x) → ∀ it2 ∈ q2, it2.id ≠ x)
  ∧ (∀ it ∈ q, ∀ it2 ∈ q2, it2.id = it.id →
      statusStepB it.status it2.status = true)

/-- Does an effect issue an HTTP request? -/
def isNetworkSend : Effect → Bool
  | .networkSend _ _ => true
  | _ => false

/-- Is an effect an error toast? -/
def isErrorToast : Effect → Bool
  | .toast _ .error => true
  | _ => false

/-- Sample preferences for concrete instances. -/
def viewPrefs : Preferences :=
  { hideMediaDefault := false, copyUrlMode := "view" }

/-- A concrete state builder for concrete instances. -/
def mkState (files : List FileRecord) (queue : List QueueItem) : AppState :=
  { files := files, capacity := 0, totalSize := 0, queue := queue,
    preferences := viewPrefs }

/-- A concrete errored queue item. -/
def errItem : QueueItem :=
  { id := "e", file := { name := "b", size := 2 }, status := Status.error,
    progress := 0, message := "", inflight := false }

/-- A concrete unshared registry record. -/
def f1rec : FileRecord :=
  { id := "f1", name := "a.txt", size := some 10485760,
    content_type := some "text/plain", share_url := none,
    share_raw_url := none, share_token := none, is_public := false }

/-- A concrete shared registry record (both link variants present). -/
def sharedRec : FileRecord :=
  { id := "s1", name := "s", size := some 1, content_type := none,
    share_url := some "https://x/s", share_raw_url := some "https://x/s/raw",
    share_token := some "tok", is_public := true }

/-- A concrete share-creation response body. -/
def shareB : ShareBody :=
  { message := none, share_url := some "U", share_raw_url := none,
    share_token := none }

/-- The backend contract for share creation (spec section 6): a success
payload carries `share_url`. -/
def shareNetOk (net : FetchOutcome ShareBody) : Prop :=
  ∀ status b, net = FetchOutcome.resp status (Except.ok b) →
    jsStrTruthy b.share_url = true

theorem computeTotalSize_go (l : List FileRecord) :
    ∀ n : Nat, l.foldl (fun total current => total + current.size.getD 0) n
      = n + (l.map (fun r => r.size.getD 0)).sum := by
  induction l with
  | nil => intro n; simp
  | cons a l ih => intro n; simp [List.foldl_cons, ih, Nat.add_assoc]

theorem computeTotalSize_eq_sum (l : List FileRecord) :
    computeTotalSize l = (l.map (fun r => r.size.getD 0)).sum := by
  simpa using computeTotalSize_go l 0

/-- C5: insert-or-update replaces the first record with a matching
identifier and otherwise prepends; afterwards `totalSize` is the exact
sum of `size` over the current records, and recomputing the total on the
unchanged registry returns the stored value again. -/
theorem insertOrUpdateFile_spec (st : AppState) (f : FileRecord) :
    (insertOrUpdateFile st f).files =
      (match st.files.findIdx? (fun entry => entry.id == f.id) with
        | some i => st.files.set i f
        | none => f :: st.files)
    ∧ (insertOrUpdateFile st f).totalSize
        = ((insertOrUpdateFile st f).files.map (fun r => r.size.getD 0)).sum
    ∧ computeTotalSize (insertOrUpdateFile st f).files
        = (insertOrUpdateFile st f).totalSize := by
  refine ⟨rfl, ?_, rfl⟩
  exact computeTotalSize_eq_sum (insertOrUpdateFiles st.files f)

/-- C8: an upload attempt answered 401 only redirects to the login page;
the queue item and the whole state are left untouched. -/
theorem uploadLoad401_redirectsOnly (st : AppState) (item : QueueItem)
    (body : Except Unit UploadBody) :
    handleUploadLoad st item 401 body = (st, [Effect.redirect "/login"]) :=
  rfl

/-- C7: removing a queue item succeeds exactly when it is `pending`; any
other status leaves the queue unchanged and emits an info toast. -/
theorem removeQueueItem_iff_pending (st : AppState) (item : QueueItem) :
    (item.status = Status.pending →
      (removeQueueItem st item).1
          = { st with queue := st.queue.filter (fun q => q.id != item.id) }
        ∧ item ∉ (removeQueueItem st item).1.queue
        ∧ (removeQueueItem st item).2 = [Effect.render])
    ∧ (item.status ≠ Status.pending →
      removeQueueItem st item
        = (st, [Effect.toast "Nur wartende Dateien können entfernt werden."
            ToastKind.info])) := by
  constructor
  · intro hp
    have hb : (item.status != Status.pending) = false := by
      simp [hp]
    refine ⟨by simp [removeQueueItem, hb], ?_, by simp [removeQueueItem, hb]⟩
    simp only [removeQueueItem, hb, Bool.false_eq_true, if_false]
    intro hmem
    rcases List.mem_filter.mp hmem with ⟨-, hne⟩
    simp at hne
  · intro hp
    have hb : (item.status != Status.pending) = true := by
      simpa using hp
    simp [removeQueueItem, hb]

/-- C7 witness: a pending item is removed; an uploading item is not. -/
theorem removeQueueItem_iff_pending_witness :
    (removeQueueItem
        { files := [], capacity := 0, totalSize := 0,
          queue := [mkQueueItem "q1" { name := "a", size := 5 }],
          preferences := { hideMediaDefault := false, copyUrlMode := "view" } }
        (mkQueueItem "q1" { name := "a", size := 5 })).1.queue = []
    ∧ (removeQueueItem
        { files := [], capacity := 0, totalSize := 0,
          queue := [uploadStart (mkQueueItem "q1" { name := "a", size := 5 })],
          preferences := { hideMediaDefault := false, copyUrlMode := "view" } }
        (uploadStart (mkQueueItem "q1" { name := "a", size := 5 }))).1.queue
      = [uploadStart (mkQueueItem "q1" { name := "a", size := 5 })] := by
  constructor
  · have h := (removeQueueItem_iff_pending
      { files := [], capacity := 0, totalSize := 0,
        queue := [mkQueueItem "q1" { name := "a", size := 5 }],
        preferences := { hideMediaDefault := false, copyUrlMode := "view" } }
      (mkQueueItem "q1" { name := "a", size := 5 })).1 rfl
    rw [h.1]
    rfl
  · have h := (removeQueueItem_iff_pending
      { files := [], capacity := 0, totalSize := 0,
        queue := [uploadStart (mkQueueItem "q1" { name := "a", size := 5 })],
        preferences := { hideMediaDefault := false, copyUrlMode := "view" } }
      (uploadStart (mkQueueItem "q1" { name := "a", size := 5 }))).2
      (by simp [uploadStart])
    rw [h]

/-- C6: a refresh attempt answered by a non-2xx status other than 401, or
by an unparsable body, surfaces an error toast and leaves the whole state
(registry, total size, capacity, preferences) exactly as it was. -/
theorem refreshFiles_failure_atomic (st : AppState) (flag : Bool)
    (status : Nat) (body : Except String RefreshBody)
    (h401 : status ≠ 401)
    (hfail : respOk status = false ∨ ∃ m, body = Except.error m) :
    (refreshFiles st flag (.resp status body)).1 = st
    ∧ ∃ m, Effect.toast m ToastKind.error
        ∈ (refreshFiles st flag (.resp status body)).2 := by
  have hb : (status == 401) = false := by
    simpa using h401
  rcases hfail with hbad | ⟨m, rfl⟩
  · constructor
    · simp [refreshFiles, refreshFilesCont, hb, hbad]
    · refine ⟨"Fehler beim Laden der Dateien.", ?_⟩
      simp [refreshFiles, refreshFilesCont, hb, hbad]
  · rcases hok : respOk status with _ | _
    · constructor
      · simp [refreshFiles, refreshFilesCont, hb, hok]
      · refine ⟨"Fehler beim Laden der Dateien.", ?_⟩
        simp [refreshFiles, refreshFilesCont, hb, hok]
    · constructor
      · simp [refreshFiles, refreshFilesCont, hb, hok]
      · refine ⟨jsStrOr m "Die Dateiliste konnte nicht geladen werden.", ?_⟩
        simp [refreshFiles, refreshFilesCont, hb, hok]

/-- C6 witness: a 500 response leaves a concrete state untouched and
surfaces an error toast. -/
theorem refreshFiles_failure_atomic_witness :
    (refreshFiles
        { files := [], capacity := 7, totalSize := 0, queue := [],
          preferences := { hideMediaDefault := false, copyUrlMode := "view" } }
        false (.resp 500 (Except.error "boom"))).1
      = { files := [], capacity := 7, totalSize := 0, queue := [],
          preferences := { hideMediaDefault := false, copyUrlMode := "view" } }
    ∧ ∃ m, Effect.toast m ToastKind.error
        ∈ (refreshFiles
            { files := [], capacity := 7, totalSize := 0, queue := [],
              preferences :=
                { hideMediaDefault := false, copyUrlMode := "view" } }
            false (.resp 500 (Except.error "boom"))).2 :=
  refreshFiles_failure_atomic _ false 500 (Except.error "boom")
    (by decide) (Or.inl (by decide))

theorem addLoop_items (cands : List (String × FileMeta)) :
    (addLoop cands).1
      = (cands.filter (fun c => decide (c.2.size ≤ MAX_FILE_SIZE))).map
          (fun c => mkQueueItem c.1 c.2) := by
  induction cands with
  | nil => rfl
  | cons c rest ih =>
    by_cases hc : c.2.size > MAX_FILE_SIZE
    · have : ¬ c.2.size ≤ MAX_FILE_SIZE := by omega
      simp [addLoop, hc, List.filter_cons, this, ih]
    · have : c.2.size ≤ MAX_FILE_SIZE := by omega
      simp [addLoop, hc, List.filter_cons, this, ih]

theorem addLoop_toasts (cands : List (String × FileMeta)) :
    (addLoop cands).2.1
      = (cands.filter (fun c => decide (MAX_FILE_SIZE < c.2.size))).map
          (fun c => Effect.toast (oversizeMsg c.2.name) ToastKind.error) := by
  induction cands with
  | nil => rfl
  | cons c rest ih =>
    by_cases hc : c.2.size > MAX_FILE_SIZE
    · simp [addLoop, hc, List.filter_cons, ih]
    · simp [addLoop, hc, List.filter_cons, ih]

/-- C4: adding candidate files enqueues exactly the ones at or below the
500 MiB ceiling, as fresh `pending` items with progress 0 appended in
order; each oversized candidate yields an error toast and no queue item;
no request is issued and the registry is untouched. -/
theorem addFilesToQueue_spec (st : AppState)
    (cands : List (String × FileMeta)) :
    (addFilesToQueue st cands).1.queue
      = st.queue ++ (cands.filter
          (fun c => decide (c.2.size ≤ MAX_FILE_SIZE))).map
            (fun c => mkQueueItem c.1 c.2)
    ∧ (∀ c : String × FileMeta, (mkQueueItem c.1 c.2).status = Status.pending
        ∧ (mkQueueItem c.1 c.2).progress = 0)
    ∧ (∀ c ∈ cands, MAX_FILE_SIZE < c.2.size →
        Effect.toast (oversizeMsg c.2.name) ToastKind.error
          ∈ (addFilesToQueue st cands).2)
    ∧ (addFilesToQueue st cands).2.countP isNetworkSend = 0
    ∧ (addFilesToQueue st cands).1.files = st.files := by
  by_cases he : cands.isEmpty
  · have : cands = [] := by
      cases cands with
      | nil => rfl
      | cons a l => simp at he
    subst this
    refine ⟨by simp [addFilesToQueue], fun c => ⟨rfl, rfl⟩, ?_, ?_, ?_⟩
    · intro c hc; simp at hc
    · simp [addFilesToQueue]
    · simp [addFilesToQueue]
  · refine ⟨?_, fun c => ⟨rfl, rfl⟩, ?_, ?_, ?_⟩
    · simp [addFilesToQueue, he, addLoop_items]
    · intro c hc hbig
      have hmem : Effect.toast (oversizeMsg c.2.name) ToastKind.error
          ∈ (addLoop cands).2.1 := by
        rw [addLoop_toasts]
        exact List.mem_map_of_mem _
          (List.mem_filter.mpr ⟨hc, by simpa using hbig⟩)
      simp [addFilesToQueue, he]
      exact hmem
    · have : ∀ e ∈ (addFilesToQueue st cands).2, isNetworkSend e = false := by
        intro e he2
        simp [addFilesToQueue, he] at he2
        rcases he2 with h | h | h
        · rw [addLoop_toasts] at h
          rcases List.mem_map.mp h with ⟨c, -, rfl⟩
          rfl
        · rw [h]; rfl
        · rcases h with ⟨-, rfl⟩; rfl
      exact List.countP_eq_zero.mpr (by simpa using this)
    · simp [addFilesToQueue, he]

/-- C4 witness: a 600 MiB candidate is rejected with an error toast while
a 1 KiB candidate is enqueued pending; no request is issued. -/
theorem addFilesToQueue_spec_witness :
    (addFilesToQueue
        { files := [], capacity := 0, totalSize := 0, queue := [],
          preferences := { hideMediaDefault := false, copyUrlMode := "view" } }
        [("a", { name := "big", size := 600 * 1024 * 1024 }),
         ("b", { name := "ok", size := 1024 })]).1.queue
      = [mkQueueItem "b" { name := "ok", size := 1024 }]
    ∧ Effect.toast (oversizeMsg "big") ToastKind.error
        ∈ (addFilesToQueue
            { files := [], capacity := 0, totalSize := 0, queue := [],
              preferences :=
                { hideMediaDefault := false, copyUrlMode := "view" } }
            [("a", { name := "big", size := 600 * 1024 * 1024 }),
             ("b", { name := "ok", size := 1024 })]).2
    ∧ (addFilesToQueue
        { files := [], capacity := 0, totalSize := 0, queue := [],
          preferences := { hideMediaDefault := false, copyUrlMode := "view" } }
        [("a", { name := "big", size := 600 * 1024 * 1024 }),
         ("b", { name := "ok", size := 1024 })]).2.countP isNetworkSend
      = 0 := by
  have h := addFilesToQueue_spec
    { files := [], capacity := 0, totalSize := 0, queue := [],
      preferences := { hideMediaDefault := false, copyUrlMode := "view" } }
    [("a", { name := "big", size := 600 * 1024 * 1024 }),
     ("b", { name := "ok", size := 1024 })]
  refine ⟨?_, ?_, h.2.2.2.1⟩
  · rw [h.1]; rfl
  · exact h.2.2.1 ("a", { name := "big", size := 600 * 1024 * 1024 })
      (by decide) (by decide)

theorem startUpload_sends (l : List QueueItem) :
    List.countP isNetworkSend
        ((l.filter (fun item => item.status == Status.pending)).flatMap
          (fun _ => [Effect.render, Effect.networkSend "POST" "/api/upload"]))
      = l.countP (fun item => item.status == Status.pending) := by
  induction l with
  | nil => rfl
  | cons a l ih =>
    by_cases ha : a.status = Status.pending
    · simp [List.filter_cons, ha, List.countP_cons, ih, isNetworkSend]
    · have : (a.status == Status.pending) = false := by simpa using ha
      simp [List.filter_cons, this, List.countP_cons, ih]

/-- C9: with no pending item, the start button only emits an info toast
and performs no request and changes no status; otherwise every pending
item transitions to `uploading` and issues its own upload request, and
items in other statuses are untouched. -/
theorem startUpload_spec (st : AppState) :
    ((∀ it ∈ st.queue, it.status ≠ Status.pending) →
      startUploadHandler st
        = (st, [Effect.toast "Keine Dateien in der Warteschlange."
            ToastKind.info]))
    ∧ ((∃ it ∈ st.queue, it.status = Status.pending) →
      (startUploadHandler st).1.queue
          = st.queue.map (fun it =>
              if it.status == Status.pending then uploadStart it else it)
        ∧ (startUploadHandler st).2.countP isNetworkSend
            = st.queue.countP (fun it => it.status == Status.pending)
        ∧ (∀ it ∈ st.queue, it.status ≠ Status.pending →
            it ∈ (startUploadHandler st).1.queue)) := by
  constructor
  · intro hno
    have : st.queue.any (fun item => item.status == Status.pending) = false := by
      rw [List.any_eq_false]
      intro it hit
      simpa using hno it hit
    simp [startUploadHandler, this]
  · intro hex
    have hany : st.queue.any (fun item => item.status == Status.pending)
        = true := by
      rw [List.any_eq_true]
      rcases hex with ⟨it, hit, hp⟩
      exact ⟨it, hit, by simpa using hp⟩
    refine ⟨by simp [startUploadHandler, hany], ?_, ?_⟩
    · simpa [startUploadHandler, hany] using startUpload_sends st.queue
    · intro it hit hnp
      have hb : (it.status == Status.pending) = false := by simpa using hnp
      simp only [startUploadHandler, hany, if_true]
      exact List.mem_map.mpr ⟨it, hit, by simp [hb]⟩

/-- C9 witness: one pending and one errored item; the pending one starts
with exactly one request, the errored one is untouched; and an all-error
queue yields only the info toast. -/
theorem startUpload_spec_witness :
    ((startUploadHandler
        (mkState [] [mkQueueItem "p" { name := "a", size := 1 },
          errItem])).2.countP isNetworkSend = 1)
    ∧ startUploadHandler (mkState [] [errItem])
      = (mkState [] [errItem],
        [Effect.toast "Keine Dateien in der Warteschlange." ToastKind.info]) := by
  constructor
  · have h := (startUpload_spec
      (mkState [] [mkQueueItem "p" { name := "a", size := 1 }, errItem])).2
      ⟨mkQueueItem "p" { name := "a", size := 1 }, by simp [mkState], rfl⟩
    rw [h.2.1]
    rfl
  · exact (startUpload_spec _).1 (by
      intro it hit
      simp only [mkState, List.mem_singleton] at hit
      rw [hit]
      decide)

/-- C2 counterexample: in the table-view variant, a delete answered 200
removes the record locally but issues no follow-up full-refresh request
(the only request in the run is the DELETE itself). -/
theorem deleteFile_no_refresh_counterexample :
    (deleteFile (mkState [f1rec] []) "f1" true
        (.resp 200 (Except.ok { message := none }))).1.files = []
    ∧ (deleteFile (mkState [f1rec] []) "f1" true
        (.resp 200 (Except.ok { message := none }))).2.countP isNetworkSend = 1
    ∧ ∀ e ∈ (deleteFile (mkState [f1rec] []) "f1" true
        (.resp 200 (Except.ok { message := none }))).2,
        e ≠ Effect.networkSend "GET" "/api/files" := by
  refine ⟨?_, ?_, ?_⟩ <;> decide

theorem refreshFilesCard_sends (st : AppState) (flag : Bool)
    (net : FetchOutcome RefreshBody) :
    Effect.networkSend "GET" "/api/files" ∈ (refreshFilesCard st flag net).2 := by
  cases net with
  | networkFailure msg => simp [refreshFilesCard]
  | resp status body =>
    by_cases h401 : (status == 401) = true
    · simp [refreshFilesCard, h401]
    · by_cases hok : respOk status = true
      · cases body with
        | error m =>
          simp [refreshFilesCard, h401, hok]
        | ok b =>
          simp [refreshFilesCard, h401, hok]
      · simp [refreshFilesCard, h401, hok]

/-- C2 amended: on a 2xx delete response both variants remove the record
with that identifier from the local registry immediately; the card-grid
delete handler then issues a follow-up full refresh, while the table-view
`deleteFile` performs only the local removal, its single request being
the DELETE itself. -/
theorem deleteFile_spec (st : AppState) (fileId : String) (file : FileRecord)
    (status : Nat) (body : Except String MsgBody)
    (hfind : st.files.find? (fun entry => entry.id == fileId) = some file)
    (hok : respOk status = true) :
    (deleteFile st fileId true (.resp status body)).1.files
        = st.files.filter (fun entry => entry.id != fileId)
    ∧ (∀ f2 ∈ (deleteFile st fileId true (.resp status body)).1.files,
        f2.id ≠ fileId)
    ∧ (deleteFile st fileId true (.resp status body)).2.countP isNetworkSend = 1
    ∧ (∀ e ∈ (deleteFile st fileId true (.resp status body)).2,
        e ≠ Effect.networkSend "GET" "/api/files")
    ∧ (∀ refreshNet, Effect.networkSend "GET" "/api/files"
        ∈ (deleteFileCardHandler st file true (.resp status body)
            refreshNet).2)
    ∧ (∀ msg, (deleteFileCardHandler st file true (.resp status body)
          (.networkFailure msg)).1.files
        = st.files.filter (fun entry => entry.id != file.id)) := by
  have h401 : (status == 401) = false := by
    have h1 := hok
    simp only [respOk, Bool.and_eq_true, decide_eq_true_eq] at h1
    simp only [beq_eq_false_iff_ne, ne_eq]
    omega
  refine ⟨?_, ?_, ?_, ?_, ?_, ?_⟩
  · simp [deleteFile, hfind, h401, hok]
  · intro f2 hf2
    simp only [deleteFile, hfind, Bool.not_true, Bool.false_eq_true, if_false,
      h401, hok, Bool.not_false, if_true] at hf2
    rcases List.mem_filter.mp hf2 with ⟨-, hne⟩
    simpa using hne
  · simp [deleteFile, hfind, h401, hok, List.countP_cons, isNetworkSend]
  · intro e he
    simp only [deleteFile, hfind, Bool.not_true, Bool.false_eq_true, if_false,
      h401, hok, Bool.not_false, if_true, List.mem_cons,
      List.not_mem_nil, or_false] at he
    rcases he with h | h | h | h <;> subst h <;> simp
  · intro refreshNet
    have hmem := refreshFilesCard_sends
      { st with files := st.files.filter (fun entry => entry.id != file.id) }
      false refreshNet
    simp only [deleteFileCardHandler, Bool.not_true, Bool.false_eq_true,
      if_false, h401, hok, Bool.not_false, if_true]
    simp only [List.mem_cons, List.mem_append]
    exact Or.inr hmem
  · intro msg
    simp [deleteFileCardHandler, h401, hok, refreshFilesCard]

/-- C2 amended witness: a concrete 200-answered delete removes `f1` in
both variants, and only the card-grid variant issues the refresh. -/
theorem deleteFile_spec_witness :
    (deleteFile (mkState [f1rec] []) "f1" true
        (.resp 204 (Except.ok { message := none }))).1.files = []
    ∧ Effect.networkSend "GET" "/api/files"
        ∈ (deleteFileCardHandler (mkState [f1rec] []) f1rec true
            (.resp 204 (Except.ok { message := none }))
            (.resp 204 (Except.error "x"))).2 := by
  have h := deleteFile_spec (mkState [f1rec] []) "f1" f1rec 204
    (Except.ok { message := none }) (by decide) (by decide)
  constructor
  · rw [h.1]; decide
  · exact h.2.2.2.2.1 (.resp 204 (Except.error "x"))

theorem find?_insertOrUpdateFiles (l : List FileRecord) (f a : FileRecord)
    (h : l.find? (fun entry => entry.id == f.id) = some a) :
    (insertOrUpdateFiles l f).find? (fun entry => entry.id == f.id)
      = some f := by
  induction l with
  | nil => simp at h
  | cons b rest ih =>
    by_cases hb : (b.id == f.id) = true
    · have hrw : insertOrUpdateFiles (b :: rest) f = f :: rest := by
        simp [insertOrUpdateFiles, List.findIdx?_cons, hb]
      rw [hrw]
      exact List.find?_cons_of_pos _ (by simp)
    · have hh : rest.find? (fun entry => entry.id == f.id) = some a := by
        rw [List.find?_cons_of_neg _ (by simpa using hb)] at h
        exact h
      have ih2 := ih hh
      cases hr : rest.findIdx? (fun entry => entry.id == f.id) with
      | some i =>
        have hrw : insertOrUpdateFiles (b :: rest) f = b :: rest.set i f := by
          simp [insertOrUpdateFiles, List.findIdx?_cons, hb,
            List.findIdx?_succ, hr]
        rw [hrw, List.find?_cons_of_neg _ (by simpa using hb)]
        have hred : insertOrUpdateFiles rest f = rest.set i f := by
          simp [insertOrUpdateFiles, hr]
        rwa [hred] at ih2
      | none =>
        exfalso
        have hall := List.findIdx?_eq_none_iff.mp hr
        have ha : a ∈ rest := List.mem_of_find?_eq_some hh
        have hpa := List.find?_some hh
        have := hall a ha
        simp [hpa] at this

theorem ensureShareLink_early (st : AppState) (fileId : String)
    (needsRaw : Bool) (net : FetchOutcome ShareBody) (file : FileRecord)
    (hfind : st.files.find? (fun entry => entry.id == fileId) = some file)
    (hurl : jsStrTruthy file.share_url = true)
    (hraw : needsRaw = true → jsStrTruthy file.share_raw_url = true) :
    ensureShareLink st fileId needsRaw net = ⟨.ok file, st, []⟩ := by
  have hguard : (jsStrTruthy file.share_url
      && (!needsRaw || jsStrTruthy file.share_raw_url)) = true := by
    cases needsRaw with
    | false => simp [hurl]
    | true => simp [hurl, hraw rfl]
  simp [ensureShareLink, hfind, hguard]

/-- C1: a record already carrying a truthy `share_url` (and, when the raw
variant is required, a truthy `share_raw_url`) is returned unchanged with
no request and no effect at all; consequently, under the backend contract
that a successful share creation returns a `share_url`, a second call
right after any successful call performs zero requests and returns the
identical record and state. -/
theorem ensureShareLink_idempotent (st : AppState) (fileId : String)
    (needsRaw : Bool) :
    (∀ net file,
      st.files.find? (fun entry => entry.id == fileId) = some file →
      jsStrTruthy file.share_url = true →
      (needsRaw = true → jsStrTruthy file.share_raw_url = true) →
      ensureShareLink st fileId needsRaw net = ⟨.ok file, st, []⟩)
    ∧ (∀ net f, shareNetOk net →
        (ensureShareLink st fileId needsRaw net).outcome = .ok f →
        ∀ net2,
          ensureShareLink (ensureShareLink st fileId needsRaw net).state
              fileId needsRaw net2
            = ⟨.ok f, (ensureShareLink st fileId needsRaw net).state, []⟩) := by
  refine ⟨fun net file h1 h2 h3 =>
    ensureShareLink_early st fileId needsRaw net file h1 h2 h3, ?_⟩
  intro net f hcontract hout net2
  cases hfind : st.files.find? (fun entry => entry.id == fileId) with
  | none => simp [ensureShareLink, hfind] at hout
  | some file =>
    have hid : file.id = fileId := by
      have := List.find?_some hfind
      simpa using this
    by_cases hguard : (jsStrTruthy file.share_url
        && (!needsRaw || jsStrTruthy file.share_raw_url)) = true
    · have hres : ensureShareLink st fileId needsRaw net
          = ⟨.ok file, st, []⟩ := by
        simp [ensureShareLink, hfind, hguard]
      have hf : file = f := by
        rw [hres] at hout
        simpa using hout
      rw [hres]
      subst hf
      simp only [Bool.and_eq_true] at hguard
      exact ensureShareLink_early st fileId needsRaw net2 file hfind hguard.1
        (fun h => by
          rcases Bool.or_eq_true_iff.mp hguard.2 with h1 | h1
          · rw [h] at h1; simp at h1
          · exact h1)
    · cases net with
      | networkFailure msg => simp [ensureShareLink, hfind, hguard] at hout
      | resp status body =>
        by_cases h401 : (status == 401) = true
        · simp [ensureShareLink, hfind, hguard, h401] at hout
        · by_cases hok2 : respOk status = true
          · cases body with
            | error m =>
              simp [ensureShareLink, hfind, hguard, h401, hok2] at hout
            | ok b =>
              have hurl : jsStrTruthy b.share_url = true :=
                hcontract status b rfl
              subst hid
              have hup := find?_insertOrUpdateFiles st.files
                { file with
                    share_url := b.share_url
                    share_raw_url := jsOrOpt b.share_raw_url b.share_url
                    share_token := jsOrOpt b.share_token file.share_token
                    is_public := true } file hfind
              have hres : ensureShareLink st file.id needsRaw
                  (.resp status (Except.ok b))
                  = ⟨.ok { file with
                        share_url := b.share_url
                        share_raw_url := jsOrOpt b.share_raw_url b.share_url
                        share_token := jsOrOpt b.share_token file.share_token
                        is_public := true },
                      insertOrUpdateFile st
                        { file with
                            share_url := b.share_url
                            share_raw_url := jsOrOpt b.share_raw_url b.share_url
                            share_token := jsOrOpt b.share_token file.share_token
                            is_public := true },
                      [Effect.networkSend "POST"
                        ("/api/files/" ++ file.id ++ "/share"),
                       Effect.render, Effect.render]⟩ := by
                simp only [ensureShareLink, hfind, hguard, Bool.false_eq_true,
                  if_false, h401, hok2, Bool.not_true, if_true,
                  insertOrUpdateFile]
                rw [hup]
                rfl
              have hf : { file with
                  share_url := b.share_url
                  share_raw_url := jsOrOpt b.share_raw_url b.share_url
                  share_token := jsOrOpt b.share_token file.share_token
                  is_public := true } = f := by
                rw [hres] at hout
                simpa using hout
              have hrawT : jsStrTruthy (jsOrOpt b.share_raw_url b.share_url)
                  = true := by
                by_cases hr : jsStrTruthy b.share_raw_url = true
                · simp [jsOrOpt, hr]
                · simp only [Bool.not_eq_true] at hr
                  simp [jsOrOpt, hr, hurl]
              rw [hres]
              show ensureShareLink
                  (insertOrUpdateFile st
                    { file with
                        share_url := b.share_url
                        share_raw_url := jsOrOpt b.share_raw_url b.share_url
                        share_token := jsOrOpt b.share_token file.share_token
                        is_public := true })
                  file.id needsRaw net2 = _
              rw [← hf]
              exact ensureShareLink_early _ file.id needsRaw net2 _ hup hurl
                (fun _ => hrawT)
          · simp [ensureShareLink, hfind, hguard, h401, hok2] at hout

/-- C1 witness: a record with both share links is returned unchanged with
no effects even when the raw variant is required; and after a successful
share creation on an unshared record, the immediate second call returns
the identical result with no effects. -/
theorem ensureShareLink_idempotent_witness :
    ensureShareLink (mkState [sharedRec] []) "s1" true (.networkFailure "x")
      = ⟨.ok sharedRec, mkState [sharedRec] [], []⟩
    ∧ ensureShareLink
        (ensureShareLink (mkState [f1rec] []) "f1" false
          (.resp 200 (Except.ok shareB))).state "f1" false
        (.networkFailure "y")
      = ⟨.ok { f1rec with
            share_url := some "U"
            share_raw_url := some "U"
            share_token := none
            is_public := true },
          (ensureShareLink (mkState [f1rec] []) "f1" false
            (.resp 200 (Except.ok shareB))).state, []⟩ := by
  constructor
  · exact (ensureShareLink_idempotent (mkState [sharedRec] []) "s1" true).1
      (.networkFailure "x") sharedRec rfl (by decide) (fun _ => by decide)
  · exact (ensureShareLink_idempotent (mkState [f1rec] []) "f1" false).2
      (.resp 200 (Except.ok shareB))
      { f1rec with
          share_url := some "U"
          share_raw_url := some "U"
          share_token := none
          is_public := true }
      (fun status b h => by cases h; decide) rfl (.networkFailure "y")

theorem log1024_half : Int.log 1024 ((1 : ℚ)/2) = -1 := by
  rw [show ((1 : ℚ)/2) = ((2 : ℚ))⁻¹ by norm_num, Int.log_inv]
  rw [show ((2 : ℚ)) = ((2 : ℕ) : ℚ) by norm_num, Int.clog_natCast]
  rw [Nat.clog_eq_one (by norm_num) (by norm_num)]
  rfl

/-- C10 counterexample: the positive finite input 0.5 yields the unit
exponent `min (-1) 4 = -1`; `units[-1]` is out of the table's range
(JS `undefined`), so the result is "512 undefined", which carries none of
the five units. -/
theorem formatBytes_fraction_counterexample :
    formatBytes (.num (1/2)) = "512 undefined"
    ∧ min (Int.log 1024 ((1 : ℚ)/2)) 4 = -1
    ∧ "undefined" ∉ ["B", "KB", "MB", "GB", "TB"] := by
  refine ⟨?_, by rw [log1024_half]; rfl, by decide⟩
  have h0 : ¬ ((1 : ℚ)/2 ≤ 0) := by norm_num
  simp only [formatBytes, h0, if_false, log1024_half]
  have hexp : min (-1 : ℤ) 4 = -1 := by decide
  rw [hexp]
  have hval : ((1 : ℚ)/2) / (1024 : ℚ)^(-1 : ℤ) = 512 := by norm_num
  rw [hval]
  have hd : ((10 : ℚ) ≤ 512 ∨ (-1 : ℤ) = 0) := Or.inl (by norm_num)
  rw [if_pos hd]
  have hfix : jsToFixed 512 0 = "512" := by
    simp only [jsToFixed]
    have : (⌊(512 : ℚ) * (10 : ℚ)^(0 : ℕ) + 1/2⌋ : ℤ) = 512 := by
      norm_num [Int.floor_eq_iff]
    rw [this]
    rfl
  rw [hfix]
  rfl

/-- C10 amended: `formatBytes` returns "0 B" on every non-finite or
non-positive input; for every finite input at least 1 the computed
exponent lies in `[0, 4]` (clamped from above at `units.length - 1`) and
the result is suffixed with exactly one of B, KB, MB, GB, TB; positive
inputs below 1, however, index the unit table below 0. -/
theorem formatBytes_total (bytes : JsNum) :
    ((∀ q : ℚ, bytes = .num q → q ≤ 0) → formatBytes bytes = "0 B")
    ∧ (∀ q : ℚ, bytes = .num q → 1 ≤ q →
        0 ≤ min (Int.log 1024 q) 4 ∧ min (Int.log 1024 q) 4 ≤ 4
        ∧ ∃ u ∈ ["B", "KB", "MB", "GB", "TB"], ∃ v : String,
            formatBytes bytes = v ++ " " ++ u) := by
  constructor
  · intro h
    cases bytes with
    | num q =>
      have hq := h q rfl
      simp [formatBytes, hq]
    | nan => rfl
    | posInf => rfl
    | negInf => rfl
  · intro q hb hq
    subst hb
    have hlog : 0 ≤ Int.log 1024 q := by
      rw [Int.log_of_one_le_right _ hq]
      positivity
    have h0 : ¬ (q ≤ 0) := by
      intro hc
      have : (1 : ℚ) ≤ 0 := le_trans hq hc
      norm_num at this
    refine ⟨le_min hlog (by norm_num), min_le_right _ _, ?_⟩
    refine ⟨unitsAt (min (Int.log 1024 q) 4), ?_, ?_⟩
    · have hb1 : 0 ≤ min (Int.log 1024 q) 4 := le_min hlog (by norm_num)
      have hb2 : min (Int.log 1024 q) 4 ≤ 4 := min_le_right _ _
      have : min (Int.log 1024 q) 4 = 0 ∨ min (Int.log 1024 q) 4 = 1
          ∨ min (Int.log 1024 q) 4 = 2 ∨ min (Int.log 1024 q) 4 = 3
          ∨ min (Int.log 1024 q) 4 = 4 := by omega
      rcases this with h | h | h | h | h <;> rw [h] <;> simp [unitsAt]
    · refine ⟨jsToFixed (q / (1024 : ℚ)^(min (Int.log 1024 q) 4))
        (if 10 ≤ q / (1024 : ℚ)^(min (Int.log 1024 q) 4)
            ∨ min (Int.log 1024 q) 4 = 0 then 0 else 1), ?_⟩
      simp only [formatBytes, h0, if_false]

/-- C10 witness: a negative input formats as "0 B", and the input 1 is
formatted with one of the five units. -/
theorem formatBytes_total_witness :
    formatBytes (.num (-3)) = "0 B"
    ∧ ∃ u ∈ ["B", "KB", "MB", "GB", "TB"], ∃ v : String,
        formatBytes (.num 1) = v ++ " " ++ u := by
  constructor
  · exact (formatBytes_total (.num (-3))).1
      (fun q h => by cases h; norm_num)
  · exact ((formatBytes_total (.num 1)).2 1 rfl (le_refl 1)).2.2

theorem statusStepB_refl (s : Status) : statusStepB s s = true := by
  cases s <;> rfl

theorem statusStepB_to_le {s t : Status} (h : statusStepB s t = true) :
    statusLeB s t = true := by
  revert h
  cases s <;> cases t <;> decide

theorem statusLeB_trans {s t u : Status} (h1 : statusLeB s t = true)
    (h2 : statusLeB t u = true) : statusLeB s u = true := by
  revert h1 h2
  cases s <;> cases t <;> cases u <;> decide

theorem nodup_id_inj {q : List QueueItem}
    (hnd : (q.map (fun it => it.id)).Nodup) {x y : QueueItem}
    (hx : x ∈ q) (hy : y ∈ q) (h : x.id = y.id) : x = y :=
  List.inj_on_of_nodup_map hnd hx hy h

theorem stepOk_id (used used2 : List String) (q : List QueueItem)
    (hsub : ∀ x ∈ used, x ∈ used2)
    (hI : QueueListInv q) (hU : ∀ it ∈ q, it.id ∈ used) :
    StepOk used used2 q q := by
  refine ⟨hI, fun it hit => hsub _ (hU it hit), ?_, ?_⟩
  · intro x _ habs it2 hit2
    exact habs it2 hit2
  · intro it hit it2 hit2 hid
    have : it2 = it := nodup_id_inj hI.2 hit2 hit hid
    subst this
    exact statusStepB_refl _

theorem stepOk_map (used used2 : List String) (q : List QueueItem)
    (g : QueueItem → QueueItem)
    (hsub : ∀ x ∈ used, x ∈ used2)
    (hI : QueueListInv q) (hU : ∀ it ∈ q, it.id ∈ used)
    (hgid : ∀ x, (g x).id = x.id)
    (hgstat : ∀ x ∈ q, statusStepB x.status (g x).status = true)
    (hginv : ∀ x ∈ q, (g x).inflight = true → (g x).status = Status.uploading) :
    StepOk used used2 q (q.map g) := by
  have hids : (q.map g).map (fun it => it.id) = q.map (fun it => it.id) := by
    rw [List.map_map]
    exact List.map_congr_left (fun x _ => hgid x)
  refine ⟨⟨?_, ?_⟩, ?_, ?_, ?_⟩
  · intro it hit hfl
    rcases List.mem_map.mp hit with ⟨x, hx, rfl⟩
    exact hginv x hx hfl
  · rw [hids]; exact hI.2
  · intro it hit
    rcases List.mem_map.mp hit with ⟨x, hx, rfl⟩
    rw [hgid x]
    exact hsub _ (hU x hx)
  · intro x _ habs it2 hit2
    rcases List.mem_map.mp hit2 with ⟨y, hy, rfl⟩
    rw [hgid y]
    exact habs y hy
  · intro it hit it2 hit2 hid
    rcases List.mem_map.mp hit2 with ⟨y, hy, rfl⟩
    have hyid : y.id = it.id := by rw [← hgid y]; exact hid
    have : y = it := nodup_id_inj hI.2 hy hit hyid
    subst this
    exact hgstat y hy

theorem stepOk_sublist (used used2 : List String) (q q2 : List QueueItem)
    (hsub : ∀ x ∈ used, x ∈ used2)
    (hI : QueueListInv q) (hU : ∀ it ∈ q, it.id ∈ used)
    (hs : List.Sublist q2 q) :
    StepOk used used2 q q2 := by
  refine ⟨⟨?_, ?_⟩, ?_, ?_, ?_⟩
  · intro it hit hfl
    exact hI.1 it (hs.mem hit) hfl
  · exact hI.2.sublist (hs.map (fun it => it.id))
  · intro it hit
    exact hsub _ (hU it (hs.mem hit))
  · intro x _ habs it2 hit2
    exact habs it2 (hs.mem hit2)
  · intro it hit it2 hit2 hid
    have : it2 = it := nodup_id_inj hI.2 (hs.mem hit2) hit hid
    subst this
    exact statusStepB_refl _

theorem stepOk_append (used used2 : List String) (q new : List QueueItem)
    (hsub : ∀ x ∈ used, x ∈ used2)
    (hI : QueueListInv q) (hU : ∀ it ∈ q, it.id ∈ used)
    (hfresh : ∀ n ∈ new, n.id ∉ used)
    (hnids : (new.map (fun it => it.id)).Nodup)
    (hnp : ∀ n ∈ new, n.status = Status.pending ∧ n.inflight = false)
    (hnmem : ∀ n ∈ new, n.id ∈ used2) :
    StepOk used used2 q (q ++ new) := by
  refine ⟨⟨?_, ?_⟩, ?_, ?_, ?_⟩
  · intro it hit hfl
    rcases List.mem_append.mp hit with h | h
    · exact hI.1 it h hfl
    · rw [(hnp it h).2] at hfl
      simp at hfl
  · rw [List.map_append]
    refine List.Nodup.append hI.2 hnids ?_
    intro a ha hb
    rcases List.mem_map.mp ha with ⟨x, hx, rfl⟩
    rcases List.mem_map.mp hb with ⟨y, hy, hyx⟩
    exact hfresh y hy (hyx ▸ hU x hx)
  · intro it hit
    rcases List.mem_append.mp hit with h | h
    · exact hsub _ (hU it h)
    · exact hnmem it h
  · intro x hx habs it2 hit2
    rcases List.mem_append.mp hit2 with h | h
    · exact habs it2 h
    · intro hc
      exact hfresh it2 h (hc ▸ hx)
  · intro it hit it2 hit2 hid
    rcases List.mem_append.mp hit2 with h | h
    · have : it2 = it := nodup_id_inj hI.2 h hit hid
      subst this
      exact statusStepB_refl _
    · exact absurd (hid ▸ hU it hit) (hfresh it2 h)

theorem addLoop_ids (cands : List (String × FileMeta)) :
    (addLoop cands).1.map (fun it => it.id)
      = (cands.filter (fun c => decide (c.2.size ≤ MAX_FILE_SIZE))).map
          Prod.fst := by
  rw [addLoop_items, List.map_map]
  exact List.map_congr_left (fun c _ => rfl)

theorem handleUploadLoad_queue (st : AppState) (item : QueueItem)
    (s : Nat) (body : Except Unit UploadBody) :
    (handleUploadLoad st item s body).1.queue = st.queue
    ∨ ∃ upd : QueueItem → QueueItem,
        (handleUploadLoad st item s body).1.queue
          = setQueueItem st.queue item.id upd
        ∧ (∀ x, (upd x).id = x.id)
        ∧ (∀ x, (upd x).status = Status.success
            ∨ (upd x).status = Status.error)
        ∧ (∀ x, (upd x).inflight = false) := by
  by_cases h401 : (s == 401) = true
  · left
    simp [handleUploadLoad, h401]
  · cases body with
    | error e =>
      right
      refine ⟨fun it => { it with
          status := Status.error
          message := "Der Upload ist fehlgeschlagen."
          inflight := false },
        ?_, fun x => rfl, fun x => Or.inr rfl, fun x => rfl⟩
      simp [handleUploadLoad, h401]
    | ok b =>
      by_cases hok : (200 ≤ s ∧ s < 300)
      · cases hdesc : b.files.bind List.head? with
        | some f =>
          right
          refine ⟨fun it => { it with
              status := Status.success
              progress := 100
              message := "Upload abgeschlossen."
              inflight := false },
            ?_, fun x => rfl, fun x => Or.inl rfl, fun x => rfl⟩
          simp [handleUploadLoad, h401, hok, hdesc, insertOrUpdateFile]
        | none =>
          right
          refine ⟨fun it => { it with
              status := Status.success
              progress := 100
              message := "Upload abgeschlossen."
              inflight := false },
            ?_, fun x => rfl, fun x => Or.inl rfl, fun x => rfl⟩
          simp [handleUploadLoad, h401, hok, hdesc]
      · right
        refine ⟨fun it => { it with
            status := Status.error
            message := jsOrStr b.message "Der Upload ist fehlgeschlagen."
            inflight := false },
          ?_, fun x => rfl, fun x => Or.inr rfl, fun x => rfl⟩
        simp [handleUploadLoad, h401, hok]

theorem stepOk_update (used : List String) (q : List QueueItem)
    (itF : QueueItem) (upd : QueueItem → QueueItem)
    (hI : QueueListInv q) (hU : ∀ it ∈ q, it.id ∈ used)
    (hmem : itF ∈ q) (hup : itF.status = Status.uploading)
    (hid : ∀ x, (upd x).id = x.id)
    (hstat : ∀ x, (upd x).status = Status.success
        ∨ (upd x).status = Status.error)
    (hinf : ∀ x, (upd x).inflight = false) :
    StepOk used used q (setQueueItem q itF.id upd) := by
  apply stepOk_map used used q _ (fun x h => h) hI hU
  · intro x
    by_cases hx : (x.id == itF.id) = true
    · simp only [hx, if_true]
      exact hid x
    · simp only [hx, Bool.false_eq_true, if_false]
  · intro x hx
    by_cases hxi : (x.id == itF.id) = true
    · have hxeq : x = itF := nodup_id_inj hI.2 hx hmem (by simpa using hxi)
      subst hxeq
      simp only [hxi, if_true]
      rw [hup]
      rcases hstat x with h | h <;> rw [h] <;> rfl
    · simp only [hxi, Bool.false_eq_true, if_false]
      exact statusStepB_refl _
  · intro x hx
    by_cases hxi : (x.id == itF.id) = true
    · simp only [hxi, if_true]
      rw [hinf x]
      intro h
      cases h
    · simp only [hxi, Bool.false_eq_true, if_false]
      exact hI.1 x hx

theorem step_ok (used : List String) (st : AppState) (op : Op)
    (hI : QueueInv st) (hU : UsedInv used st) (hwf : opWf used op) :
    StepOk used (usedAfter used op) st.queue (step st op).1.queue := by
  have hIq : QueueListInv st.queue := hI
  have hUq : ∀ it ∈ st.queue, it.id ∈ used := hU
  cases op with
  | add cands =>
    obtain ⟨hnodup, hfreshc⟩ := hwf
    show StepOk used (used ++ cands.map Prod.fst) st.queue _
    by_cases he : cands.isEmpty = true
    · have hq : (step st (.add cands)).1.queue = st.queue := by
        simp [step, addFilesToQueue, he]
      rw [hq]
      exact stepOk_id used _ _ (fun x hx => List.mem_append_left _ hx) hIq hUq
    · have hq : (step st (.add cands)).1.queue
          = st.queue ++ (addLoop cands).1 := by
        simp [step, addFilesToQueue, he]
      rw [hq]
      have hsubl : List.Sublist
          ((cands.filter (fun c => decide (c.2.size ≤ MAX_FILE_SIZE))).map
            Prod.fst)
          (cands.map Prod.fst) :=
        (List.filter_sublist cands).map Prod.fst
      apply stepOk_append used _ st.queue _
        (fun x hx => List.mem_append_left _ hx) hIq hUq
      · intro n hn
        rw [addLoop_items] at hn
        rcases List.mem_map.mp hn with ⟨c, hc, rfl⟩
        exact hfreshc c (List.mem_of_mem_filter hc)
      · rw [addLoop_ids]
        exact hnodup.sublist hsubl
      · intro n hn
        rw [addLoop_items] at hn
        rcases List.mem_map.mp hn with ⟨c, hc, rfl⟩
        exact ⟨rfl, rfl⟩
      · intro n hn
        apply List.mem_append_right
        have : n.id ∈ (addLoop cands).1.map (fun it => it.id) :=
          List.mem_map_of_mem _ hn
        rw [addLoop_ids] at this
        exact hsubl.mem this
  | start =>
    by_cases hany :
        (st.queue.any (fun item => item.status == Status.pending)) = true
    · have hq : (step st .start).1.queue
          = st.queue.map (fun item =>
              if item.status == Status.pending then uploadStart item
              else item) := by
        simp [step, startUploadHandler, hany]
      rw [hq]
      apply stepOk_map used used _ _ (fun x hx => hx) hIq hUq
      · intro x
        by_cases hx : (x.status == Status.pending) = true <;>
          simp [hx, uploadStart]
      · intro x hx
        by_cases hxs : (x.status == Status.pending) = true
        · have hxp : x.status = Status.pending := by simpa using hxs
          simp only [hxs, if_true]
          rw [hxp]
          rfl
        · simp only [hxs, Bool.false_eq_true, if_false]
          exact statusStepB_refl _
      · intro x hx
        by_cases hxs : (x.status == Status.pending) = true
        · simp only [hxs, if_true]
          intro _
          rfl
        · simp only [hxs, Bool.false_eq_true, if_false]
          exact hIq.1 x hx
    · have hq : (step st .start).1.queue = st.queue := by
        simp [step, startUploadHandler, hany]
      rw [hq]
      exact stepOk_id used used _ (fun x hx => hx) hIq hUq
  | progressEv id loaded total =>
    cases hfind : st.queue.find? (fun it => it.id == id) with
    | none =>
      have hq : (step st (.progressEv id loaded total)).1.queue
          = st.queue := by
        simp [step, hfind]
      rw [hq]
      exact stepOk_id used used _ (fun x hx => hx) hIq hUq
    | some itF =>
      by_cases hin : itF.inflight = true
      · have hq : (step st (.progressEv id loaded total)).1.queue
            = setQueueItem st.queue id (fun i2 =>
                { i2 with
                    progress := (loaded : ℚ) / (total : ℚ) * 100 }) := by
          simp [step, hfind, hin]
        rw [hq]
        apply stepOk_map used used _ _ (fun x hx => hx) hIq hUq
        · intro x
          by_cases hx : (x.id == id) = true <;> simp [hx]
        · intro x hx
          by_cases hxi : (x.id == id) = true <;>
            simp only [hxi, if_true, Bool.false_eq_true, if_false] <;>
            exact statusStepB_refl _
        · intro x hx
          by_cases hxi : (x.id == id) = true
          · simp only [hxi, if_true]
            exact hIq.1 x hx
          · simp only [hxi, Bool.false_eq_true, if_false]
            exact hIq.1 x hx
      · have hq : (step st (.progressEv id loaded total)).1.queue
            = st.queue := by
          simp [step, hfind, hin]
        rw [hq]
        exact stepOk_id used used _ (fun x hx => hx) hIq hUq
  | loadEv id s body =>
    cases hfind : st.queue.find? (fun it => it.id == id) with
    | none =>
      have hq : (step st (.loadEv id s body)).1.queue = st.queue := by
        simp [step, hfind]
      rw [hq]
      exact stepOk_id used used _ (fun x hx => hx) hIq hUq
    | some itF =>
      by_cases hin : itF.inflight = true
      · have hq : (step st (.loadEv id s body)).1
            = (handleUploadLoad st itF s body).1 := by
          simp [step, hfind, hin]
        rcases handleUploadLoad_queue st itF s body with hcase |
          ⟨upd, hequ, hid2, hstat2, hinf2⟩
        · rw [hq, hcase]
          exact stepOk_id used used _ (fun x hx => hx) hIq hUq
        · rw [hq, hequ]
          have hmemF : itF ∈ st.queue := List.mem_of_find?_eq_some hfind
          have hupF : itF.status = Status.uploading := hIq.1 itF hmemF hin
          exact stepOk_update used st.queue itF upd hIq hUq hmemF hupF
            hid2 hstat2 hinf2
      · have hq : (step st (.loadEv id s body)).1.queue = st.queue := by
          simp [step, hfind, hin]
        rw [hq]
        exact stepOk_id used used _ (fun x hx => hx) hIq hUq
  | errorEv id =>
    cases hfind : st.queue.find? (fun it => it.id == id) with
    | none =>
      have hq : (step st (.errorEv id)).1.queue = st.queue := by
        simp [step, hfind]
      rw [hq]
      exact stepOk_id used used _ (fun x hx => hx) hIq hUq
    | some itF =>
      by_cases hin : itF.inflight = true
      · have hq : (step st (.errorEv id)).1.queue
            = setQueueItem st.queue itF.id (fun it =>
                { it with
                    status := Status.error
                    message := "Netzwerkfehler beim Upload."
                    inflight := false }) := by
          simp [step, hfind, hin, handleUploadError]
        rw [hq]
        have hmemF : itF ∈ st.queue := List.mem_of_find?_eq_some hfind
        have hupF : itF.status = Status.uploading := hIq.1 itF hmemF hin
        exact stepOk_update used st.queue itF _ hIq hUq hmemF hupF
          (fun x => rfl) (fun x => Or.inr rfl) (fun x => rfl)
      · have hq : (step st (.errorEv id)).1.queue = st.queue := by
          simp [step, hfind, hin]
        rw [hq]
        exact stepOk_id used used _ (fun x hx => hx) hIq hUq
  | removalTimer id =>
    cases hidx : st.queue.findIdx? (fun entry => entry.id == id) with
    | none =>
      have hq : (step st (.removalTimer id)).1.queue = st.queue := by
        simp [step, queueRemovalTimerFire, hidx]
      rw [hq]
      exact stepOk_id used used _ (fun x hx => hx) hIq hUq
    | some i =>
      cases hget : st.queue[i]? with
      | none =>
        have hq : (step st (.removalTimer id)).1.queue = st.queue := by
          simp [step, queueRemovalTimerFire, hidx, hget]
        rw [hq]
        exact stepOk_id used used _ (fun x hx => hx) hIq hUq
      | some it =>
        by_cases hsucc : (it.status == Status.success) = true
        · have hq : (step st (.removalTimer id)).1.queue
              = st.queue.eraseIdx i := by
            simp [step, queueRemovalTimerFire, hidx, hget, hsucc]
          rw [hq]
          exact stepOk_sublist used used _ _ (fun x hx => hx) hIq hUq
            (List.eraseIdx_sublist _ _)
        · have hq : (step st (.removalTimer id)).1.queue = st.queue := by
            simp [step, queueRemovalTimerFire, hidx, hget, hsucc]
          rw [hq]
          exact stepOk_id used used _ (fun x hx => hx) hIq hUq
  | removeClick id =>
    cases hfind : st.queue.find? (fun it => it.id == id) with
    | none =>
      have hq : (step st (.removeClick id)).1.queue = st.queue := by
        simp [step, hfind]
      rw [hq]
      exact stepOk_id used used _ (fun x hx => hx) hIq hUq
    | some itF =>
      by_cases hp : (itF.status != Status.pending) = true
      · have hq : (step st (.removeClick id)).1.queue = st.queue := by
          simp [step, hfind, removeQueueItem, hp]
        rw [hq]
        exact stepOk_id used used _ (fun x hx => hx) hIq hUq
      · have hq : (step st (.removeClick id)).1.queue
            = st.queue.filter (fun q => q.id != itF.id) := by
          simp [step, hfind, removeQueueItem, hp]
        rw [hq]
        exact stepOk_sublist used used _ _ (fun x hx => hx) hIq hUq
          (List.filter_sublist _)

theorem statusLeB_refl (s : Status) : statusLeB s s = true := by
  cases s <;> rfl

theorem used_subset_usedAfter (used : List String) (op : Op) :
    ∀ x ∈ used, x ∈ usedAfter used op := by
  cases op <;> intro x hx <;>
    first
      | exact hx
      | exact List.mem_append_left _ hx

theorem run_absent (ops : List Op) :
    ∀ used st x, x ∈ used → (∀ itm ∈ st.queue, itm.id ≠ x) →
      QueueInv st → UsedInv used st → traceWf used st ops →
      ∀ it2 ∈ (run st ops).queue, it2.id ≠ x := by
  induction ops with
  | nil =>
    intro used st x hx habs hI hU htr it2 hit2
    exact habs it2 hit2
  | cons op rest ih =>
    intro used st x hx habs hI hU htr it2 hit2
    obtain ⟨hwf, htr2⟩ := htr
    have hok := step_ok used st op hI hU hwf
    exact ih (usedAfter used op) (step st op).1 x
      (used_subset_usedAfter used op x hx)
      (hok.2.2.1 x hx habs) hok.1 hok.2.1 htr2 it2 hit2

theorem run_statusLe (ops : List Op) :
    ∀ used st, QueueInv st → UsedInv used st → traceWf used st ops →
      ∀ it ∈ st.queue, ∀ it2 ∈ (run st ops).queue, it2.id = it.id →
        statusLeB it.status it2.status = true := by
  induction ops with
  | nil =>
    intro used st hI hU htr it hit it2 hit2 hid
    have : it2 = it := nodup_id_inj hI.2 hit2 hit hid
    subst this
    exact statusLeB_refl _
  | cons op rest ih =>
    intro used st hI hU htr it hit it2 hit2 hid
    obtain ⟨hwf, htr2⟩ := htr
    have hok := step_ok used st op hI hU hwf
    by_cases hex : ∃ itm ∈ (step st op).1.queue, itm.id = it.id
    · obtain ⟨itm, hitm, hitmid⟩ := hex
      have h1 : statusStepB it.status itm.status = true :=
        hok.2.2.2 it hit itm hitm hitmid
      have h2 : statusLeB itm.status it2.status = true :=
        ih (usedAfter used op) (step st op).1 hok.1 hok.2.1 htr2 itm hitm
          it2 hit2 (by rw [hid, hitmid])
      exact statusLeB_trans (statusStepB_to_le h1) h2
    · exfalso
      push_neg at hex
      exact run_absent rest (usedAfter used op) (step st op).1 it.id
        (used_subset_usedAfter used op it.id (hU it hit))
        hex hok.1 hok.2.1 htr2 it2 hit2 hid

/-- C3: over any well-formed event (fresh generated ids, well-formed
progress events), a queue item's status moves only along
`pending → uploading → success/error`: each single event relates the old
and new status of an item by `statusStepB`, any well-formed event
sequence relates them by the path order `statusLeB`, and that order never
re-enters `pending` from any other status. -/
theorem queueStatus_monotone :
    (∀ used st op, QueueInv st → UsedInv used st → opWf used op →
      ∀ it ∈ st.queue, ∀ it2 ∈ (step st op).1.queue, it2.id = it.id →
        statusStepB it.status it2.status = true)
    ∧ (∀ ops used st, QueueInv st → UsedInv used st → traceWf used st ops →
      ∀ it ∈ st.queue, ∀ it2 ∈ (run st ops).queue, it2.id = it.id →
        statusLeB it.status it2.status = true)
    ∧ (∀ s, statusLeB s Status.pending = true ↔ s = Status.pending) := by
  refine ⟨?_, ?_, fun s => by cases s <;> decide⟩
  · intro used st op hI hU hwf it hit it2 hit2 hid
    exact (step_ok used st op hI hU hwf).2.2.2 it hit it2 hit2 hid
  · intro ops used st hI hU htr it hit it2 hit2 hid
    exact run_statusLe ops used st hI hU htr it hit it2 hit2 hid

/-- C3 witness: on a concrete queue, the start event moves the pending
item to `uploading`, and the trace start-then-successful-load relates
`pending` to `success` along the path order. -/
theorem queueStatus_monotone_witness :
    statusStepB Status.pending Status.uploading = true
    ∧ statusLeB Status.pending Status.success = true := by
  constructor
  · exact queueStatus_monotone.1 ["p"]
      (mkState [] [mkQueueItem "p" { name := "a", size := 1 }]) .start
      ⟨by decide, by decide⟩ (by unfold UsedInv; decide) trivial
      (mkQueueItem "p" { name := "a", size := 1 }) (by decide)
      (uploadStart (mkQueueItem "p" { name := "a", size := 1 }))
      (by decide) rfl
  · exact queueStatus_monotone.2.1
      [Op.start, Op.loadEv "p" 200
        (Except.ok { message := none, files := some [f1rec] })] ["p"]
      (mkState [] [mkQueueItem "p" { name := "a", size := 1 }])
      ⟨by decide, by decide⟩ (by unfold UsedInv; decide)
      ⟨trivial, trivial, trivial⟩
      (mkQueueItem "p" { name := "a", size := 1 }) (by decide)
      { id := "p", file := { name := "a", size := 1 },
        status := Status.success, progress := 100,
        message := "Upload abgeschlossen.", inflight := false }
      (by decide) rfl
